import Mathlib

/-!
Verification of the log-monitor pipeline (`main.go`, plus the earliest
variant in `src/unnamed/part_000`).

The Go code is shallowly embedded: Go strings are Lean `String`s, the
`map[string]struct{}` API set is a `List String` (Go map iteration order is
unspecified, so every theorem about `LongestMatch` holds for every order of
the list), the database sink is an explicit fallible callback, and the awk
subprocess used for field extraction is modelled in-process by the same
field selection it performs.
-/

namespace LogMonitor

/-- LogEntry mirrors the record type of `main.go` (lines 19-29). -/
structure LogEntry where
  Server     : String
  Program    : String
  Date       : String
  Time       : String
  StatusCode : String
  Duration   : String
  IP         : String
  Method     : String
  APIPath    : String
deriving DecidableEq

/-- strStartsWith s pre models Go `strings.HasPrefix(s, pre)`:
`pre` is a leading substring of `s`. -/
def strStartsWith (s pre : String) : Bool :=
  pre.toList.isPrefixOf s.toList

/-- lmStep is the loop body of `LongestMatch` (main.go lines 65-69): a
candidate replaces the current best only when it is a leading substring of
the path and strictly longer than the current best. -/
def lmStep (apiPath : String) (longestMatch api : String) : String :=
  if strStartsWith apiPath api = true ∧ longestMatch.length < api.length then api
  else longestMatch

/-- LongestMatch models `LongestMatch` (main.go lines 63-71): fold the loop
body over the API set starting from the empty string, which doubles as the
"no match" result. -/
def LongestMatch (apiPath : String) (apiList : List String) : String :=
  apiList.foldl (lmStep apiPath) ""

/-- fieldsAux splits a character stream into maximal runs of
non-whitespace characters, accumulating the current run in `cur`
(reversed). -/
def fieldsAux (cur : List Char) : List Char → List String
  | [] => if cur = [] then [] else [String.mk cur.reverse]
  | c :: cs =>
      if c.isWhitespace then
        if cur = [] then fieldsAux [] cs
        else String.mk cur.reverse :: fieldsAux [] cs
      else fieldsAux (c :: cur) cs

/-- goFields models Go `strings.Fields`: the whitespace-separated tokens of
a string, with no empty tokens. -/
def goFields (s : String) : List String :=
  fieldsAux [] s.toList

/-- trimQuotes models Go `strings.Trim(s, "\"")`: remove every leading and
trailing double-quote character. -/
def trimQuotes (s : String) : String :=
  String.mk (((s.toList.dropWhile (fun c => c = '"')).reverse.dropWhile
    (fun c => c = '"')).reverse)

/-- awkOutputFields models the composition of `awk '{print $2,$4,$6,$8,$10,$12,$13}'`
with Go `strings.Fields` applied to awk's output (main.go lines 33-41):
awk prints the selected positional fields (an out-of-range field prints as
the empty string) joined by single spaces, and `strings.Fields` then keeps
exactly the nonempty ones.  Since tokens contain no whitespace, that is the
selection below. -/
def awkOutputFields (ts : List String) : List String :=
  ([2, 4, 6, 8, 10, 12, 13].map (fun i => ts.getD (i - 1) "")).filter
    (fun t => t ≠ "")

/-- ParseLogWithAWK models `ParseLogWithAWK` (main.go lines 32-60): select
fields 2,4,6,8,10,12,13 of the line, and if at least 7 survive build the
record (trimming quotes off the path), otherwise fail.  `none` is the
error return. -/
def ParseLogWithAWK (line server program : String) : Option LogEntry :=
  let fields := awkOutputFields (goFields line)
  if fields.length ≥ 7 then
    some { Server := server, Program := program,
           Date := fields.getD 0 "", Time := fields.getD 1 "",
           StatusCode := fields.getD 2 "", Duration := fields.getD 3 "",
           IP := fields.getD 4 "", Method := fields.getD 5 "",
           APIPath := trimQuotes (fields.getD 6 "") }
  else none

/-- FlushTrigger records why a batch was sent to the sink: the in-loop
size check (main.go line 130) or the end-of-stream remainder write
(main.go line 146). -/
inductive FlushTrigger where
  | threshold
  | streamEnd
deriving DecidableEq

/-- flushRemainder models main.go lines 145-153: after the stream ends the
buffered entries are written only when the buffer is nonempty. -/
def flushRemainder {α : Type} (entries : List α) : List (List α × FlushTrigger) :=
  if entries.length > 0 then [(entries, FlushTrigger.streamEnd)] else []

/-- accumulate models the batching discipline of `monitorLogs`
(main.go lines 104-153) applied to the stream of matched records: each
record is appended to the buffer, a full buffer is flushed and reset
(lines 127-138), and the remainder is flushed at end of stream.  The
result lists every batch handed to the sink together with what triggered
it. -/
def accumulate {α : Type} (batchSize : Nat) : List α → List α → List (List α × FlushTrigger)
  | [], entries => flushRemainder entries
  | r :: rs, entries =>
      if (entries ++ [r]).length ≥ batchSize then
        (entries ++ [r], FlushTrigger.threshold) :: accumulate batchSize rs []
      else
        accumulate batchSize rs (entries ++ [r])

/-- matchedEntries models the per-line match-and-rewrite of `monitorLogs`
(main.go lines 123-141), applied to the already-parsed records of the
stream: a record whose path has a nonempty longest match is kept with its
path overwritten by the match; a record with no match is dropped. -/
def matchedEntries (apiList : List String) (es : List LogEntry) : List LogEntry :=
  es.filterMap (fun e =>
    if LongestMatch e.APIPath apiList ≠ "" then
      some { e with APIPath := LongestMatch e.APIPath apiList }
    else none)

/-- InsertLogEntry models `InsertLogEntry` (main.go lines 74-89): execute
the insert for each entry in order and return the first error, or `none`
on success.  The database is abstracted as the per-row callback `exec`. -/
def InsertLogEntry {α : Type} (exec : α → Option String) : List α → Option String
  | [] => none
  | e :: es =>
      match exec e with
      | some err => some err
      | none => InsertLogEntry exec es

/-- thresholdFlush models the batch-boundary block of `monitorLogs`
(main.go lines 129-138): when the buffer has reached the batch size the
whole buffer is written once (no retry), the outcome is observed by the
caller, and the buffer is reset to empty on both the success and the
error path (line 137 runs unconditionally).  Returns the new buffer and
`some outcome` when a flush happened. -/
def thresholdFlush {α : Type} (exec : α → Option String) (batchSize : Nat)
    (entries : List α) : List α × Option (Option String) :=
  if entries.length ≥ batchSize then
    (([] : List α), some (InsertLogEntry exec entries))
  else
    (entries, none)

/-- retentionQuery is the delete-by-age command of `CleanOldLogs`
(main.go line 159). -/
def retentionQuery : String :=
  "DELETE FROM oula_logs_record WHERE date < NOW() - INTERVAL 8 DAY"

/-- CleanOldLogs models `CleanOldLogs` (main.go lines 157-164): issue the
retention delete once; an execution error is only logged.  Returns the
commands issued and whether an error was logged. -/
def CleanOldLogs (exec : String → Option String) : List String × Bool :=
  ([retentionQuery], (exec retentionQuery).isSome)

/-- sweeperLoop models the retention goroutine of `main` (main.go lines
190-195) for its first `n` ticks: every iteration runs `CleanOldLogs` and
sleeps; nothing in the loop body inspects the outcome.  `exec i` is the
sink's behaviour on tick `i`. -/
def sweeperLoop (exec : Nat → String → Option String) : Nat → List String
  | 0 => []
  | n + 1 => sweeperLoop exec n ++ (CleanOldLogs (exec n)).1

/-- goTrimSpace models Go `strings.TrimSpace`: remove leading and trailing
whitespace characters. -/
def goTrimSpace (s : String) : String :=
  String.mk (((s.toList.dropWhile Char.isWhitespace).reverse.dropWhile
    Char.isWhitespace).reverse)

/-- LoadAPIList models `LoadAPIList` (main.go lines 209-231) on the list of
lines of the API file: trim each line and keep the nonempty ones. -/
def LoadAPIList (ls : List String) : List String :=
  ls.filterMap (fun l =>
    let t := goTrimSpace l
    if t ≠ "" then some t else none)

/-- OldLogEntry mirrors the record type of the earliest variant
(src/unnamed/part_000 lines 18-26). -/
structure OldLogEntry where
  Date       : String
  Time       : String
  StatusCode : String
  Duration   : String
  IP         : String
  Method     : String
  Endpoint   : String
deriving DecidableEq

/-- ProcessLog models `ProcessLog` of the earliest variant
(src/unnamed/part_000 lines 29-46): split the line on whitespace, require
at least 13 tokens, and keep the line only when token 12 (index 11) is
exactly a member of the API set. -/
def ProcessLog (line : String) (apiList : List String) : Option OldLogEntry :=
  let parts := goFields line
  if parts.length ≥ 13 then
    let endpoint := parts.getD 11 ""
    if endpoint ∈ apiList then
      some { Date := parts.getD 1 "", Time := parts.getD 2 "",
             StatusCode := parts.getD 4 "", Duration := parts.getD 6 "",
             IP := parts.getD 8 "", Method := parts.getD 10 "",
             Endpoint := endpoint }
    else none
  else none

/-- oldAdmits is the admission test of the earliest variant's filter
(src/unnamed/part_000 line 33): the path is exactly an element of the API
set. -/
def oldAdmits (path : String) (apiList : List String) : Prop :=
  path ∈ apiList

/-- newAdmits is the admission test of the batching variant
(main.go lines 124-125): the longest match is nonempty. -/
def newAdmits (path : String) (apiList : List String) : Prop :=
  LongestMatch path apiList ≠ ""

instance (path : String) (apiList : List String) :
    Decidable (oldAdmits path apiList) := by
  unfold oldAdmits
  infer_instance

instance (path : String) (apiList : List String) :
    Decidable (newAdmits path apiList) := by
  unfold newAdmits
  infer_instance

/-! Helper lemmas about strings and the matcher fold. -/

theorem str_length_eq_zero {s : String} (h : s.length = 0) : s = "" := by
  cases s with
  | mk data =>
    cases data with
    | nil => rfl
    | cons c cs => simp [String.length] at h

theorem strStartsWith_empty (P : String) : strStartsWith P "" = true := by
  simp [strStartsWith, List.isPrefixOf]

theorem isPrefixOf_self (l : List Char) : l.isPrefixOf l = true := by
  induction l with
  | nil => rfl
  | cons a l ih => simp [List.isPrefixOf, ih]

theorem strStartsWith_self (s : String) : strStartsWith s s = true :=
  isPrefixOf_self s.toList

theorem lmStep_cases (P acc a : String) :
    lmStep P acc a = acc ∨ (lmStep P acc a = a ∧ strStartsWith P a = true) := by
  unfold lmStep
  by_cases h : strStartsWith P a = true ∧ acc.length < a.length
  · rw [if_pos h]
    exact Or.inr ⟨rfl, h.1⟩
  · rw [if_neg h]
    exact Or.inl rfl

theorem lmStep_le (P acc a : String) : acc.length ≤ (lmStep P acc a).length := by
  unfold lmStep
  by_cases h : strStartsWith P a = true ∧ acc.length < a.length
  · rw [if_pos h]
    exact Nat.le_of_lt h.2
  · rw [if_neg h]

theorem lmStep_ge_cand (P acc a : String) (hp : strStartsWith P a = true) :
    a.length ≤ (lmStep P acc a).length := by
  unfold lmStep
  by_cases h : strStartsWith P a = true ∧ acc.length < a.length
  · rw [if_pos h]
  · rw [if_neg h]
    exact Nat.le_of_not_lt (fun hlt => h ⟨hp, hlt⟩)

theorem lm_foldl_le (P : String) (l : List String) :
    ∀ acc : String, acc.length ≤ (l.foldl (lmStep P) acc).length := by
  induction l with
  | nil => intro acc; exact Nat.le_refl _
  | cons a l ih =>
    intro acc
    rw [List.foldl_cons]
    exact Nat.le_trans (lmStep_le P acc a) (ih _)

theorem lm_foldl_cases (P : String) (l : List String) :
    ∀ acc : String, l.foldl (lmStep P) acc = acc ∨
      (l.foldl (lmStep P) acc ∈ l ∧ strStartsWith P (l.foldl (lmStep P) acc) = true) := by
  induction l with
  | nil => intro acc; exact Or.inl rfl
  | cons a l ih =>
    intro acc
    rw [List.foldl_cons]
    rcases ih (lmStep P acc a) with h | h
    · rw [h]
      rcases lmStep_cases P acc a with h2 | h2
      · rw [h2]
        exact Or.inl rfl
      · rw [h2.1]
        exact Or.inr ⟨List.mem_cons_self a l, h2.2⟩
    · exact Or.inr ⟨List.mem_cons_of_mem a h.1, h.2⟩

theorem lm_foldl_max (P : String) (l : List String) :
    ∀ acc s : String, s ∈ l → strStartsWith P s = true →
      s.length ≤ (l.foldl (lmStep P) acc).length := by
  induction l with
  | nil =>
    intro acc s hs _
    exact absurd hs (List.not_mem_nil s)
  | cons a l ih =>
    intro acc s hs hp
    rw [List.foldl_cons]
    rcases List.mem_cons.mp hs with rfl | hmem
    · exact Nat.le_trans (lmStep_ge_cand P acc s hp) (lm_foldl_le P l _)
    · exact ih _ s hmem hp

theorem lm_foldl_keep (P : String) (l : List String) :
    ∀ acc : String, strStartsWith P acc = true →
      strStartsWith P (l.foldl (lmStep P) acc) = true := by
  induction l with
  | nil => intro acc h; exact h
  | cons a l ih =>
    intro acc h
    rw [List.foldl_cons]
    rcases lmStep_cases P acc a with h2 | h2
    · apply ih
      rw [h2]
      exact h
    · apply ih
      rw [h2.1]
      exact h2.2

theorem lm_foldl_nomatch (P : String) (l : List String)
    (h : ∀ s ∈ l, strStartsWith P s = true → s = "") :
    l.foldl (lmStep P) "" = "" := by
  induction l with
  | nil => rfl
  | cons a l ih =>
    rw [List.foldl_cons]
    have ha : lmStep P "" a = "" := by
      unfold lmStep
      by_cases hc : strStartsWith P a = true ∧ ("" : String).length < a.length
      · exfalso
        have ha0 : a = "" := h a (List.mem_cons_self a l) hc.1
        rw [ha0] at hc
        exact Nat.lt_irrefl _ hc.2
      · rw [if_neg hc]
    rw [ha]
    exact ih (fun s hs hp => h s (List.mem_cons_of_mem a hs) hp)

theorem LongestMatch_mem_of_ne (P : String) (S : List String)
    (h : LongestMatch P S ≠ "") : LongestMatch P S ∈ S := by
  rcases lm_foldl_cases P S "" with h2 | h2
  · exact absurd h2 h
  · exact h2.1

theorem LongestMatch_isPre (P : String) (S : List String) :
    strStartsWith P (LongestMatch P S) = true :=
  lm_foldl_keep P S "" (strStartsWith_empty P)

theorem LongestMatch_max (P : String) (S : List String) (s : String)
    (hs : s ∈ S) (hp : strStartsWith P s = true) :
    s.length ≤ (LongestMatch P S).length :=
  lm_foldl_max P S "" s hs hp

/-- C1: for every path `P` and prefix set `S`, `LongestMatch` returns an
element of `S` that is a prefix of `P` of maximal length among the
elements of `S` that are prefixes of `P`, and returns the no-match result
`""` when no element of `S` is a prefix of `P` (in particular when `S` is
empty). -/
theorem LongestMatch_returns_longest_matching_element (P : String) (S : List String) :
    ((∃ s ∈ S, strStartsWith P s = true) →
      LongestMatch P S ∈ S ∧ strStartsWith P (LongestMatch P S) = true ∧
        ∀ s ∈ S, strStartsWith P s = true → s.length ≤ (LongestMatch P S).length) ∧
    ((∀ s ∈ S, strStartsWith P s = false) → LongestMatch P S = "") := by
  constructor
  · rintro ⟨s, hs, hp⟩
    by_cases hne : LongestMatch P S = ""
    · have hmax := LongestMatch_max P S s hs hp
      rw [hne] at hmax
      have hs0 : s = "" := str_length_eq_zero (Nat.le_antisymm hmax (Nat.zero_le _))
      refine ⟨?_, LongestMatch_isPre P S, fun t ht hpt => LongestMatch_max P S t ht hpt⟩
      rw [hne]
      rw [hs0] at hs
      exact hs
    · exact ⟨LongestMatch_mem_of_ne P S hne, LongestMatch_isPre P S,
        fun t ht hpt => LongestMatch_max P S t ht hpt⟩
  · intro h
    apply lm_foldl_nomatch
    intro s hs hp
    rw [h s hs] at hp
    exact absurd hp (by simp)

/-- C1 witness: concrete instance with a two-element set and a no-match
path. -/
theorem LongestMatch_returns_longest_matching_element_witness :
    (LongestMatch "/a/b" ["/a", "/a/b"] ∈ ["/a", "/a/b"] ∧
      strStartsWith "/a/b" (LongestMatch "/a/b" ["/a", "/a/b"]) = true ∧
      ∀ s ∈ ["/a", "/a/b"], strStartsWith "/a/b" s = true →
        s.length ≤ (LongestMatch "/a/b" ["/a", "/a/b"]).length) ∧
    LongestMatch "/zz" ["/a"] = "" :=
  ⟨(LongestMatch_returns_longest_matching_element "/a/b" ["/a", "/a/b"]).1
      ⟨"/a", by decide, by decide⟩,
   (LongestMatch_returns_longest_matching_element "/zz" ["/a"]).2 (by decide)⟩

/-- C9: the matcher never selects the empty string as a match: whenever
every element of `S` that is a prefix of `P` is the empty string (in
particular when `"" ∈ S` and nothing else matches), the result is the
no-match value `""`; moreover `LoadAPIList` never produces an empty entry,
so an empty set element cannot arise from the configuration file. -/
theorem LongestMatch_never_empty_match (P : String) (S ls : List String)
    (h : ∀ s ∈ S, strStartsWith P s = true → s = "") :
    LongestMatch P S = "" ∧ "" ∉ LoadAPIList ls := by
  constructor
  · exact lm_foldl_nomatch P S h
  · intro hmem
    simp only [LoadAPIList, List.mem_filterMap] at hmem
    rcases hmem with ⟨l, _, hf⟩
    split at hf
    · rename_i hne
      exact hne (Option.some.inj hf)
    · exact Option.noConfusion hf

/-- C9 witness: a set containing only the empty string never matches, and
loading a file with blank lines yields no empty entry. -/
theorem LongestMatch_never_empty_match_witness :
    LongestMatch "/x" [""] = "" ∧ "" ∉ LoadAPIList ["", " x ", "/api"] :=
  LongestMatch_never_empty_match "/x" [""] ["", " x ", "/api"] (by decide)

/-! Lemmas about the batch accumulator. -/

theorem accumulate_sum {α : Type} (T : Nat) :
    ∀ (rs buf : List α),
      ((accumulate T rs buf).map (fun f => f.1.length)).sum = buf.length + rs.length := by
  intro rs
  induction rs with
  | nil =>
    intro buf
    simp only [accumulate, flushRemainder]
    by_cases h : buf.length > 0
    · rw [if_pos h]
      simp
    · rw [if_neg h]
      simp
      omega
  | cons r rs ih =>
    intro buf
    simp only [accumulate]
    by_cases h : (buf ++ [r]).length ≥ T
    · rw [if_pos h]
      simp only [List.map_cons, List.sum_cons, ih, List.length_append,
        List.length_cons, List.length_nil]
      omega
    · rw [if_neg h]
      rw [ih]
      simp only [List.length_append, List.length_cons, List.length_nil]
      omega

theorem accumulate_batch_le {α : Type} (T : Nat) :
    ∀ (rs buf : List α), buf.length < T →
      ∀ f ∈ accumulate T rs buf, f.1.length ≤ T := by
  intro rs
  induction rs with
  | nil =>
    intro buf hb f hf
    simp only [accumulate, flushRemainder] at hf
    by_cases h : buf.length > 0
    · rw [if_pos h] at hf
      simp only [List.mem_singleton] at hf
      rw [hf]
      exact Nat.le_of_lt hb
    · rw [if_neg h] at hf
      exact absurd hf (List.not_mem_nil f)
  | cons r rs ih =>
    intro buf hb f hf
    simp only [accumulate] at hf
    by_cases h : (buf ++ [r]).length ≥ T
    · rw [if_pos h] at hf
      rcases List.mem_cons.mp hf with rfl | hmem
      · simp only [List.length_append, List.length_cons, List.length_nil] at hb ⊢
        omega
      · exact ih [] (by simpa using Nat.lt_of_le_of_lt (Nat.zero_le _) hb) f hmem
    · rw [if_neg h] at hf
      exact ih (buf ++ [r]) (Nat.lt_of_not_le h) f hf

theorem accumulate_count {α : Type} (T : Nat) (hT : 0 < T) :
    ∀ (rs buf : List α), buf.length < T →
      (accumulate T rs buf).length = (buf.length + rs.length + T - 1) / T := by
  intro rs
  induction rs with
  | nil =>
    intro buf hb
    simp only [accumulate, flushRemainder, List.length_nil, Nat.add_zero]
    by_cases h : buf.length > 0
    · rw [if_pos h]
      simp only [List.length_singleton]
      symm
      apply Nat.div_eq_of_lt_le
      · omega
      · omega
    · rw [if_neg h]
      have hb0 : buf.length = 0 := by omega
      rw [hb0]
      simp only [List.length_nil]
      symm
      apply Nat.div_eq_of_lt
      omega
  | cons r rs ih =>
    intro buf hb
    simp only [accumulate, List.length_cons]
    by_cases h : (buf ++ [r]).length ≥ T
    · rw [if_pos h]
      have hbl : buf.length + 1 = T := by
        simp only [List.length_append, List.length_cons, List.length_nil] at h
        omega
      rw [List.length_cons, ih [] (by simpa using hT)]
      simp only [List.length_nil, Nat.zero_add]
      have hnum : buf.length + (rs.length + 1) + T - 1 = (rs.length + T - 1) + T := by
        omega
      rw [hnum, Nat.add_div_right _ hT]
    · rw [if_neg h]
      rw [ih (buf ++ [r]) (Nat.lt_of_not_le h)]
      congr 1
      simp only [List.length_append, List.length_cons, List.length_nil]
      omega

theorem accumulate_last_streamEnd {α : Type} (T : Nat) (hT : 0 < T) :
    ∀ (rs buf : List α), buf.length < T → (buf.length + rs.length) % T ≠ 0 →
      ((accumulate T rs buf).getLast?).map (fun f => f.2) =
        some FlushTrigger.streamEnd := by
  intro rs
  induction rs with
  | nil =>
    intro buf hb hm
    simp only [accumulate, flushRemainder]
    have hpos : buf.length > 0 := by
      by_contra h0
      have h1 : buf.length = 0 := by omega
      rw [h1, List.length_nil, Nat.add_zero] at hm
      exact hm (Nat.zero_mod T)
    rw [if_pos hpos]
    rfl
  | cons r rs ih =>
    intro buf hb hm
    simp only [accumulate]
    by_cases h : (buf ++ [r]).length ≥ T
    · rw [if_pos h]
      have hbl : buf.length + 1 = T := by
        simp only [List.length_append, List.length_cons, List.length_nil] at h
        omega
      have hm2 : rs.length % T ≠ 0 := by
        rw [List.length_cons] at hm
        have he : buf.length + (rs.length + 1) = T + rs.length := by omega
        rw [he, Nat.add_mod_left] at hm
        exact hm
      have hm3 : (([] : List α).length + rs.length) % T ≠ 0 := by
        simpa using hm2
      have hne : accumulate T rs ([] : List α) ≠ [] := by
        intro hnil
        have hc := accumulate_count T hT rs ([] : List α) (by simpa using hT)
        rw [hnil] at hc
        simp only [List.length_nil, Nat.zero_add] at hc
        have hrs : rs.length > 0 := by
          by_contra h0
          have h1 : rs.length = 0 := by omega
          rw [h1] at hm2
          exact hm2 (Nat.zero_mod T)
        have hone : 1 ≤ (rs.length + T - 1) / T := by
          apply (Nat.one_le_div_iff hT).mpr
          omega
        omega
      cases hrest : accumulate T rs ([] : List α) with
      | nil => exact absurd hrest hne
      | cons y ys =>
        rw [List.getLast?_cons_cons, ← hrest]
        exact ih [] (by simpa using hT) hm3
    · rw [if_neg h]
      apply ih (buf ++ [r]) (Nat.lt_of_not_le h)
      simp only [List.length_append, List.length_cons, List.length_nil] at hm ⊢
      have he : buf.length + 1 + rs.length = buf.length + (rs.length + 1) := by omega
      rw [he]
      exact hm

/-- C2: adding `N` records to the accumulator with batch threshold `T > 0`
produces exactly `ceil(N/T) = (N + T - 1) / T` flushes to the sink, each
of at most `T` records, whose sizes sum to `N`; and when `N` is not a
multiple of `T` the final flush is the end-of-stream remainder flush, not
a threshold flush. -/
theorem accumulate_flush_count_spec {α : Type} (T : Nat) (records : List α)
    (hT : 0 < T) :
    (accumulate T records ([] : List α)).length = (records.length + T - 1) / T ∧
    (∀ f ∈ accumulate T records ([] : List α), f.1.length ≤ T) ∧
    ((accumulate T records ([] : List α)).map (fun f => f.1.length)).sum =
      records.length ∧
    (records.length % T ≠ 0 →
      ((accumulate T records ([] : List α)).getLast?).map (fun f => f.2) =
        some FlushTrigger.streamEnd) := by
  refine ⟨?_, ?_, ?_, ?_⟩
  · have h := accumulate_count T hT records ([] : List α) (by simpa using hT)
    simpa using h
  · exact accumulate_batch_le T records ([] : List α) (by simpa using hT)
  · simpa using accumulate_sum T records ([] : List α)
  · intro hm
    exact accumulate_last_streamEnd T hT records ([] : List α)
      (by simpa using hT) (by simpa using hm)

/-- C2 witness: 250 records with threshold 100 give exactly 3 flushes. -/
theorem accumulate_flush_count_spec_witness :
    (accumulate 100 (List.replicate 250 ()) ([] : List Unit)).length = 3 := by
  have h := (accumulate_flush_count_spec 100 (List.replicate 250 ()) (by decide)).1
  rw [h, List.length_replicate]

/-- C7: the end-of-stream remainder flush with an empty buffer performs no
sink write: it produces no batch, both for `flushRemainder` itself and for
the whole accumulator run on an empty record stream. -/
theorem flushRemainder_empty_noop :
    flushRemainder ([] : List LogEntry) = [] ∧
    ∀ T : Nat, accumulate T ([] : List LogEntry) [] = [] := by
  exact ⟨rfl, fun T => rfl⟩

/-- C8: the retention sweeper issues exactly one delete-by-age command on
every tick, for every possible sequence of sink outcomes: after `n` ticks
the sink has received the retention delete exactly `n` times, so a failed
delete on any tick never changes what later ticks issue. -/
theorem sweeperLoop_one_delete_per_tick (exec : Nat → String → Option String)
    (n : Nat) :
    sweeperLoop exec n = List.replicate n retentionQuery := by
  induction n with
  | zero => rfl
  | succ n ih =>
    simp only [sweeperLoop, CleanOldLogs, ih]
    rw [List.replicate_succ']

theorem InsertLogEntry_none_iff {α : Type} (exec : α → Option String)
    (es : List α) :
    InsertLogEntry exec es = none ↔ ∀ e ∈ es, exec e = none := by
  induction es with
  | nil => simp [InsertLogEntry]
  | cons e es ih =>
    cases hx : exec e with
    | some err => simp [InsertLogEntry, hx]
    | none => simp [InsertLogEntry, hx, ih]

/-- C3 counterexample: with batch size 1 and a sink that always fails, the
flush reports the error to the caller, yet the buffer after the failed
flush is empty rather than still holding the failed batch's records. -/
theorem thresholdFlush_not_cleared_cex :
    thresholdFlush (fun _ : Unit => some "db error") 1 [()] =
      (([] : List Unit), some (some "db error")) ∧
    (([] : List Unit) ≠ [()]) := by
  exact ⟨rfl, by decide⟩

/-- C3 amended: when the buffer reaches the batch size the flush is
attempted exactly once, its outcome — the first row error, if any — is
surfaced to the caller, and the buffer is reset to empty regardless of
that outcome, so the records of a failed batch are dropped, not retained;
the insert succeeds exactly when every row write succeeds. -/
theorem thresholdFlush_amended {α : Type} (exec : α → Option String) (T : Nat)
    (entries : List α) (h : entries.length ≥ T) :
    (thresholdFlush exec T entries).1 = [] ∧
    (thresholdFlush exec T entries).2 = some (InsertLogEntry exec entries) ∧
    (InsertLogEntry exec entries = none ↔ ∀ e ∈ entries, exec e = none) := by
  refine ⟨?_, ?_, InsertLogEntry_none_iff exec entries⟩
  · unfold thresholdFlush
    rw [if_pos h]
  · unfold thresholdFlush
    rw [if_pos h]

/-- C3 amended witness: a concrete one-record batch at threshold 1. -/
theorem thresholdFlush_amended_witness :
    (thresholdFlush (fun _ : Unit => (none : Option String)) 1 [()]).1 = [] ∧
    (thresholdFlush (fun _ : Unit => (none : Option String)) 1 [()]).2 =
      some (InsertLogEntry (fun _ : Unit => (none : Option String)) [()]) ∧
    (InsertLogEntry (fun _ : Unit => (none : Option String)) [()] = none ↔
      ∀ e ∈ [()], (fun _ : Unit => (none : Option String)) e = none) :=
  thresholdFlush_amended (fun _ : Unit => (none : Option String)) 1 [()] (by decide)

theorem str_length_pos {s : String} (h : s ≠ "") : 0 < s.length := by
  rcases Nat.eq_zero_or_pos s.length with h0 | h0
  · exact absurd (str_length_eq_zero h0) h
  · exact h0

/-- C4: every record that the match-and-rewrite stage passes on towards the
sink carries as its `APIPath` the matcher's nonempty result for the raw
path of some input record — an element of the set that is a leading
substring of the raw path and that differs from the raw path unless the
raw path is itself a configured prefix — and a record whose raw path has
no match never appears among the records passed on. -/
theorem matchedEntries_sink_invariant (S : List String) (es : List LogEntry) :
    (∀ e' ∈ matchedEntries S es,
      ∃ e ∈ es,
        e' = { e with APIPath := LongestMatch e.APIPath S } ∧
        LongestMatch e.APIPath S ≠ "" ∧
        e'.APIPath ∈ S ∧
        strStartsWith e.APIPath e'.APIPath = true ∧
        (e.APIPath ∉ S → e'.APIPath ≠ e.APIPath)) ∧
    (∀ e ∈ es, LongestMatch e.APIPath S = "" → e ∉ matchedEntries S es) := by
  constructor
  · intro e' he'
    simp only [matchedEntries, List.mem_filterMap] at he'
    rcases he' with ⟨e, he, hf⟩
    split at hf
    · rename_i hne
      have heq : e' = { e with APIPath := LongestMatch e.APIPath S } :=
        (Option.some.inj hf).symm
      have hAPI : e'.APIPath = LongestMatch e.APIPath S := by rw [heq]
      refine ⟨e, he, heq, hne, ?_, ?_, ?_⟩
      · rw [hAPI]
        exact LongestMatch_mem_of_ne e.APIPath S hne
      · rw [hAPI]
        exact LongestMatch_isPre e.APIPath S
      · intro hnot hc
        apply hnot
        rw [← hc, hAPI]
        exact LongestMatch_mem_of_ne e.APIPath S hne
    · exact Option.noConfusion hf
  · intro e he hm hmem
    simp only [matchedEntries, List.mem_filterMap] at hmem
    rcases hmem with ⟨e2, _, hf⟩
    split at hf
    · rename_i hne2
      have heq : e = { e2 with APIPath := LongestMatch e2.APIPath S } :=
        (Option.some.inj hf).symm
      have hAPI : e.APIPath = LongestMatch e2.APIPath S := by rw [heq]
      have hmem2 : e.APIPath ∈ S := by
        rw [hAPI]
        exact LongestMatch_mem_of_ne e2.APIPath S hne2
      have hpne : e.APIPath ≠ "" := by
        rw [hAPI]
        exact hne2
      have hmax := LongestMatch_max e.APIPath S e.APIPath hmem2
        (strStartsWith_self e.APIPath)
      rw [hm] at hmax
      have h0 : ("" : String).length = 0 := rfl
      have hpos := str_length_pos hpne
      omega
    · exact Option.noConfusion hf

/-- C4 witness: a record whose raw path matches no prefix is not among the
records passed towards the sink. -/
theorem matchedEntries_sink_invariant_witness :
    ({ Server := "s", Program := "p", Date := "d", Time := "t",
       StatusCode := "200", Duration := "5ms", IP := "ip", Method := "GET",
       APIPath := "/zz" } : LogEntry) ∉
      matchedEntries ["/api"]
        [{ Server := "s", Program := "p", Date := "d", Time := "t",
           StatusCode := "200", Duration := "5ms", IP := "ip", Method := "GET",
           APIPath := "/zz" }] :=
  (matchedEntries_sink_invariant ["/api"]
      [{ Server := "s", Program := "p", Date := "d", Time := "t",
         StatusCode := "200", Duration := "5ms", IP := "ip", Method := "GET",
         APIPath := "/zz" }]).2
    { Server := "s", Program := "p", Date := "d", Time := "t",
      StatusCode := "200", Duration := "5ms", IP := "ip", Method := "GET",
      APIPath := "/zz" }
    (by decide) (by decide)

theorem filter_snoc_empty_length_le (l : List String) :
    ((l ++ [""]).filter (fun t => t ≠ "")).length ≤ l.length := by
  rw [List.filter_append]
  simp only [List.filter_cons, List.filter_nil]
  norm_num
  exact List.length_filter_le _ l

/-- C5: a line with fewer than 13 whitespace tokens cannot fill all seven
selected awk fields, so the parser fails with the error return and emits
no record at all. -/
theorem ParseLogWithAWK_short_line_fails (line server program : String)
    (h : (goFields line).length < 13) :
    ParseLogWithAWK line server program = none := by
  have h13 : (goFields line)[12]?.getD "" = "" := by
    rw [List.getElem?_eq_none (by omega)]
    rfl
  have hform : awkOutputFields (goFields line) =
      ([(goFields line).getD 1 "", (goFields line).getD 3 "",
        (goFields line).getD 5 "", (goFields line).getD 7 "",
        (goFields line).getD 9 "", (goFields line).getD 11 ""] ++
        [""]).filter (fun t => t ≠ "") := by
    unfold awkOutputFields
    simp only [List.map_cons, List.map_nil]
    norm_num
    rw [h13]
  have hlt : (awkOutputFields (goFields line)).length < 7 := by
    rw [hform]
    have hle := filter_snoc_empty_length_le
      [(goFields line).getD 1 "", (goFields line).getD 3 "",
       (goFields line).getD 5 "", (goFields line).getD 7 "",
       (goFields line).getD 9 "", (goFields line).getD 11 ""]
    simp only [List.length_cons, List.length_nil] at hle
    omega
  simp only [ParseLogWithAWK]
  rw [if_neg (Nat.not_le.mpr hlt)]

/-- C5 witness: a three-token line parses to the error return. -/
theorem ParseLogWithAWK_short_line_fails_witness :
    ParseLogWithAWK "a b c" "srv" "prg" = none :=
  ParseLogWithAWK_short_line_fails "a b c" "srv" "prg" (by decide)

theorem mk_reverse_ne_empty {cur : List Char} (h : cur ≠ []) :
    String.mk cur.reverse ≠ "" := by
  intro hc
  apply h
  have h2 : cur.reverse = ([] : List Char) := congrArg String.data hc
  rw [List.reverse_eq_nil_iff] at h2
  exact h2

theorem fieldsAux_ne_empty :
    ∀ (l cur : List Char) (t : String), t ∈ fieldsAux cur l → t ≠ "" := by
  intro l
  induction l with
  | nil =>
    intro cur t ht
    simp only [fieldsAux] at ht
    split at ht
    · exact absurd ht (List.not_mem_nil t)
    · rename_i hcur
      simp only [List.mem_singleton] at ht
      rw [ht]
      exact mk_reverse_ne_empty hcur
  | cons c cs ih =>
    intro cur t ht
    simp only [fieldsAux] at ht
    split at ht
    · split at ht
      · exact ih [] t ht
      · rename_i hcur
        rcases List.mem_cons.mp ht with heq | hmem
        · rw [heq]
          exact mk_reverse_ne_empty hcur
        · exact ih [] t hmem
    · exact ih (c :: cur) t ht

theorem goFields_mem_ne_empty (s : String) (t : String) (ht : t ∈ goFields s) :
    t ≠ "" :=
  fieldsAux_ne_empty s.toList [] t ht

/-- C6: on a line whose whitespace tokens are `t1 .. t13` (and possibly
more), the parser succeeds and maps tokens 2, 4, 6, 8, 10, 12, 13 to
date, time, status code, duration, client IP, HTTP method and API path
respectively, trimming surrounding double quotes off the path token only,
so the record's path before matching is the unquoted raw path. -/
theorem ParseLogWithAWK_field_positions
    (line server program t1 t2 t3 t4 t5 t6 t7 t8 t9 t10 t11 t12 t13 : String)
    (rest : List String)
    (h : goFields line =
      [t1, t2, t3, t4, t5, t6, t7, t8, t9, t10, t11, t12, t13] ++ rest) :
    ParseLogWithAWK line server program =
      some { Server := server, Program := program, Date := t2, Time := t4,
             StatusCode := t6, Duration := t8, IP := t10, Method := t12,
             APIPath := trimQuotes t13 } := by
  have hne : ∀ t ∈ goFields line, t ≠ "" :=
    fun t ht => goFields_mem_ne_empty line t ht
  have e2 : t2 ≠ "" := hne t2 (by rw [h]; simp)
  have e4 : t4 ≠ "" := hne t4 (by rw [h]; simp)
  have e6 : t6 ≠ "" := hne t6 (by rw [h]; simp)
  have e8 : t8 ≠ "" := hne t8 (by rw [h]; simp)
  have e10 : t10 ≠ "" := hne t10 (by rw [h]; simp)
  have e12 : t12 ≠ "" := hne t12 (by rw [h]; simp)
  have e13 : t13 ≠ "" := hne t13 (by rw [h]; simp)
  have hawk : awkOutputFields (goFields line) =
      [t2, t4, t6, t8, t10, t12, t13] := by
    rw [h]
    unfold awkOutputFields
    simp only [List.map_cons, List.map_nil, List.cons_append, List.nil_append]
    norm_num
    simp [List.filter_cons, e2, e4, e6, e8, e10, e12, e13]
  simp only [ParseLogWithAWK, hawk]
  norm_num

/-- C6 witness: the spec's example line with marker, quoted timestamp and a
quoted path strictly extending the configured prefix. -/
theorem ParseLogWithAWK_field_positions_witness :
    ParseLogWithAWK
        "GIN \"2024-01-01\" x \"10:00:00\" x 200 x 15ms x 1.2.3.4 x GET \"/api/v1/users/42\""
        "srv" "prg" =
      some { Server := "srv", Program := "prg", Date := "\"2024-01-01\"",
             Time := "\"10:00:00\"", StatusCode := "200", Duration := "15ms",
             IP := "1.2.3.4", Method := "GET",
             APIPath := trimQuotes "\"/api/v1/users/42\"" } :=
  ParseLogWithAWK_field_positions
    "GIN \"2024-01-01\" x \"10:00:00\" x 200 x 15ms x 1.2.3.4 x GET \"/api/v1/users/42\""
    "srv" "prg" "GIN" "\"2024-01-01\"" "x" "\"10:00:00\"" "x" "200" "x" "15ms"
    "x" "1.2.3.4" "x" "GET" "\"/api/v1/users/42\"" [] (by decide)

/-- C10: the earliest variant's per-line filter and the batching variant's
matcher are not equivalent.  The earliest variant admits a line exactly
when it has at least 13 tokens and token 12 is literally an element of the
API set; the batching variant admits a path as soon as some set element is
a leading substring of it, so a path strictly extending a configured
prefix without equalling any entry is dropped by the earliest variant and
accepted by the batching one; and over API sets without the empty string
(all sets produced by `LoadAPIList`) the two admission tests agree exactly
when the path equals a configured entry or no entry is a leading substring
of the path. -/
theorem oldAdmits_newAdmits_comparison :
    (∀ (line : String) (S : List String),
      (ProcessLog line S).isSome = true ↔
        ((goFields line).length ≥ 13 ∧ oldAdmits ((goFields line).getD 11 "") S)) ∧
    (∃ (S : List String) (p : String),
      (∃ s ∈ S, strStartsWith p s = true ∧ s ≠ p) ∧ p ∉ S ∧
        ¬ oldAdmits p S ∧ newAdmits p S) ∧
    (∀ (S : List String) (p : String), "" ∉ S →
      ((oldAdmits p S ↔ newAdmits p S) ↔
        (p ∈ S ∨ ∀ s ∈ S, strStartsWith p s = false))) := by
  refine ⟨?_, ?_, ?_⟩
  · intro line S
    simp only [ProcessLog, oldAdmits]
    by_cases h13 : (goFields line).length ≥ 13
    · by_cases hmem : (goFields line).getD 11 "" ∈ S
      · simp [h13, hmem]
      · simp [h13, hmem]
    · simp [h13]
  · refine ⟨["/api"], "/api/v1", ⟨"/api", by decide, by decide, by decide⟩,
      by decide, by decide, by decide⟩
  · intro S p hE
    constructor
    · intro hag
      by_cases hp : p ∈ S
      · exact Or.inl hp
      · right
        intro s hs
        cases hx : strStartsWith p s with
        | false => rfl
        | true =>
          exfalso
          have hsne : s ≠ "" := fun hc => hE (hc ▸ hs)
          have hnew : newAdmits p S := by
            unfold newAdmits
            intro hc
            have hmax := LongestMatch_max p S s hs hx
            rw [hc] at hmax
            have h0 : ("" : String).length = 0 := rfl
            have hpos := str_length_pos hsne
            omega
          exact hp (hag.mpr hnew)
    · intro hor
      rcases hor with hp | hnone
      · constructor
        · intro _
          unfold newAdmits
          intro hc
          have hpne : p ≠ "" := fun hc2 => hE (hc2 ▸ hp)
          have hmax := LongestMatch_max p S p hp (strStartsWith_self p)
          rw [hc] at hmax
          have h0 : ("" : String).length = 0 := rfl
          have hpos := str_length_pos hpne
          omega
        · intro _
          exact hp
      · constructor
        · intro hold
          exfalso
          have hx := hnone p hold
          rw [strStartsWith_self p] at hx
          exact Bool.noConfusion hx
        · intro hnew
          exfalso
          apply hnew
          apply lm_foldl_nomatch
          intro s hs hpre
          rw [hnone s hs] at hpre
          exact Bool.noConfusion hpre

/-- C10 witness: over the concrete set `{"/api"}` (which, like every set
produced by `LoadAPIList`, has no empty entry), the two admission tests
agree on `"/x"` because no entry is a leading substring of it. -/
theorem oldAdmits_newAdmits_comparison_witness :
    (oldAdmits "/x" ["/api"] ↔ newAdmits "/x" ["/api"]) ↔
      ("/x" ∈ (["/api"] : List String) ∨
        ∀ s ∈ (["/api"] : List String), strStartsWith "/x" s = false) :=
  oldAdmits_newAdmits_comparison.2.2 ["/api"] "/x" (by decide)

end LogMonitor
